import Mathlib

/-!
Verification of `scripts/shuffle_options.py`: a utility that shuffles the
`options` array of each multiple-choice question in a JSON file and rewrites
`correctIndex` so it still points at the originally-correct answer.

The embedding below mirrors the Python source:
* a `Question` is a record with the fields the script touches (`type`,
  `options`, `correctIndex`) plus an opaque remainder `other` standing for
  all other JSON fields;
* Python list indexing `options[correct_index]` (which supports negative
  indices) is `pyGet`;
* `enumerate`-based pairing (line 57) is `mkPairs`;
* `random.shuffle` is modelled by an explicit permutation function `π`
  applied to the pairs list; theorems quantify over every `π` whose output
  is a permutation of its input;
* exceptions (`IndexError` from line 54, `StopIteration` from line 64) are
  an `Except PyError` result; the per-file driver writes the file only when
  the whole loop succeeds, and `main`'s batch loop (lines 110-111) has no
  handler, so a transform error aborts the batch.
-/

namespace ShuffleOptions

/-- Exceptions the transform can raise: `IndexError` from `options[correct_index]`
(line 54) and `StopIteration` from `next(...)` (line 64). -/
inductive PyError where
  | indexError
  | stopIteration
deriving DecidableEq, Repr

/-- A question record: the three fields the script reads (`type`, `options`,
`correctIndex`), each optional since the script tests presence, plus `other`,
an opaque stand-in for every remaining JSON field. Option values are an
opaque type `α`. -/
structure Question (α : Type) (β : Type) where
  qtype : Option String
  options : Option (List α)
  correctIndex : Option Int
  other : β
deriving DecidableEq

/-- Line 48 of the script: `question.get("type") == "multiple-choice" and
"options" in question and "correctIndex" in question`. -/
def qualifies (q : Question α β) : Bool :=
  q.qtype == some "multiple-choice" && q.options.isSome && q.correctIndex.isSome

/-- Python list indexing `l[i]`: negative indices count from the end;
out-of-range access yields `none` (an `IndexError` in Python). -/
def pyGet (l : List α) (i : Int) : Option α :=
  let j : Int := if i < 0 then (l.length : Int) + i else i
  if 0 ≤ j then l[j.toNat]? else none

/-- Line 57: `[(option, i == correct_index) for i, option in enumerate(options)]`. -/
def mkPairs (options : List α) (ci : Int) : List (α × Bool) :=
  options.enum.map (fun p => (p.2, ((p.1 : Int) == ci)))

/-- Lines 52-64 of the script, for one question. `π` models the
`random.shuffle` call: it is applied to the pairs list, and the theorems
assume its output is a permutation of its input. Non-qualifying questions
pass through untouched; a qualifying question either gets fresh `options`
and `correctIndex` or raises. -/
def shuffleQuestion (π : List (α × Bool) → List (α × Bool)) (q : Question α β) :
    Except PyError (Question α β) :=
  if qualifies q then
    match q.options, q.correctIndex with
    | some options, some ci =>
      match pyGet options ci with
      | none => .error .indexError
      | some _ =>
        match (π (mkPairs options ci)).findIdx? (fun p => p.2) with
        | none => .error .stopIteration
        | some j =>
          .ok { q with options := some ((π (mkPairs options ci)).map Prod.fst),
                       correctIndex := some (j : Int) }
    | _, _ => .ok q
  else .ok q

/-- The `for question in questions` loop (lines 46-66): questions are
processed in order; the first exception aborts the loop and propagates. -/
def shuffleQuestions (π : List (α × Bool) → List (α × Bool)) :
    List (Question α β) → Except PyError (List (Question α β))
  | [] => .ok []
  | q :: rest =>
    match shuffleQuestion π q with
    | .error e => .error e
    | .ok q' =>
      match shuffleQuestions π rest with
      | .error e => .error e
      | .ok rest' => .ok (q' :: rest')

/-- On-disk content of one file, as the script can observe it: missing,
not valid JSON, or a list of questions. -/
inductive FileData (α β : Type) where
  | notFound
  | invalidJson
  | questions (qs : List (Question α β))
deriving DecidableEq

/-- `shuffle_options_in_file` (lines 21-76) acting on one file's content.
Returns the exception that escaped the function (if any) and the resulting
on-disk content. A missing or unparsable file is reported and skipped
(lines 34-39): no exception escapes and the file is untouched. Otherwise
the loop runs; on an exception the write at lines 69-70 is never reached,
so the disk keeps the old content; on success the transformed list is
written back. -/
def shuffle_options_in_file (π : List (α × Bool) → List (α × Bool))
    (fd : FileData α β) : Option PyError × FileData α β :=
  match fd with
  | .notFound => (none, .notFound)
  | .invalidJson => (none, .invalidJson)
  | .questions qs =>
    match shuffleQuestions π qs with
    | .error e => (some e, .questions qs)
    | .ok qs' => (none, .questions qs')

/-- The batch loop in `main` (lines 110-111): files are processed in order
with no exception handler, so the first exception escaping
`shuffle_options_in_file` aborts the loop, leaving later files untouched. -/
def processBatch (π : List (α × Bool) → List (α × Bool)) :
    List (FileData α β) → Option PyError × List (FileData α β)
  | [] => (none, [])
  | fd :: rest =>
    match shuffle_options_in_file π fd with
    | (some e, fd') => (some e, fd' :: rest)
    | (none, fd') =>
      let r := processBatch π rest
      (r.1, fd' :: r.2)

/-- Recursive reformulation of the `enumerate`-based pairing: the same list
`mkPairs` builds, with the running index made explicit for induction. -/
def pairsAux (ci : Int) : Nat → List α → List (α × Bool)
  | _, [] => []
  | k, o :: rest => (o, ((k : Int) == ci)) :: pairsAux ci (k + 1) rest

/-- Spec §8 Scenario A: a valid multiple-choice question. -/
def qMC : Question String Unit :=
  ⟨some "multiple-choice", some ["A", "B", "C"], some 1, ()⟩

/-- A valid two-option question whose content a real shuffle changes. -/
def qGood : Question String Unit :=
  ⟨some "multiple-choice", some ["A", "B"], some 0, ()⟩

/-- A question whose `correctIndex` is past the end of `options`. -/
def qBad5 : Question String Unit :=
  ⟨some "multiple-choice", some ["A"], some 5, ()⟩

/-- A question with a negative `correctIndex` inside Python's range. -/
def qNeg1 : Question String Unit :=
  ⟨some "multiple-choice", some ["A", "B"], some (-1), ()⟩

/-- A multiple-choice question with an empty `options` list. -/
def qEmpty : Question String Unit :=
  ⟨some "multiple-choice", some [], some (-7), ()⟩

/-- A file holding only `qBad5`: its processing raises `IndexError`. -/
def badFile : FileData String Unit := .questions [qBad5]

/-- A file holding only `qGood`: processing succeeds and, under a
reversing shuffle, changes its content. -/
def goodFile : FileData String Unit := .questions [qGood]

theorem enumFrom_map_pairsAux (ci : Int) (l : List α) :
    ∀ k, (l.enumFrom k).map (fun p => ((p.2 : α), ((p.1 : Int) == ci))) = pairsAux ci k l := by
  induction l with
  | nil => intro k; rfl
  | cons o rest ih =>
    intro k
    simp only [List.enumFrom_cons, List.map_cons, pairsAux, ih]

theorem mkPairs_eq_pairsAux (options : List α) (ci : Int) :
    mkPairs options ci = pairsAux ci 0 options := by
  unfold mkPairs
  rw [List.enum_eq_enumFrom]
  exact enumFrom_map_pairsAux ci options 0

theorem pairsAux_map_fst (ci : Int) :
    ∀ (k : Nat) (l : List α), (pairsAux ci k l).map Prod.fst = l := by
  intro k l
  induction l generalizing k with
  | nil => rfl
  | cons o rest ih => simp [pairsAux, ih]

theorem pairsAux_getElem? (ci : Int) :
    ∀ (k : Nat) (l : List α) (i : Nat),
      (pairsAux ci k l)[i]? = l[i]?.map (fun o => (o, (((k + i : Nat) : Int) == ci))) := by
  intro k l
  induction l generalizing k with
  | nil => intro i; simp [pairsAux]
  | cons o rest ih =>
    intro i
    cases i with
    | zero => simp [pairsAux]
    | succ i =>
      simp only [pairsAux, List.getElem?_cons_succ, ih (k + 1) i]
      have : k + 1 + i = k + (i + 1) := by omega
      rw [this]

theorem pairsAux_filter_of_lt (ci : Int) :
    ∀ (k : Nat) (l : List α), ci < (k : Int) →
      (pairsAux ci k l).filter (fun p => p.2) = [] := by
  intro k l
  induction l generalizing k with
  | nil => intro _; rfl
  | cons o rest ih =>
    intro hk
    have hflag : (((k : Nat) : Int) == ci) = false := by
      rw [beq_eq_false_iff_ne]
      omega
    simp only [pairsAux, List.filter_cons, hflag, if_false]
    exact ih (k + 1) (by omega)

theorem pairsAux_filter_of_mem (ci : Int) :
    ∀ (k : Nat) (l : List α), (k : Int) ≤ ci → ci < (k : Int) + l.length →
      ∃ v, l[(ci - (k : Int)).toNat]? = some v ∧
        (pairsAux ci k l).filter (fun p => p.2) = [(v, true)] := by
  intro k l
  induction l generalizing k with
  | nil =>
    intro h1 h2
    simp only [List.length_nil, Nat.cast_zero, Int.add_zero] at h2
    omega
  | cons o rest ih =>
    intro h1 h2
    simp only [List.length_cons, Nat.cast_add, Nat.cast_one] at h2
    by_cases hk : ((k : Nat) : Int) = ci
    · refine ⟨o, ?_, ?_⟩
      · have h0 : (ci - (k : Int)).toNat = 0 := by omega
        rw [h0]
        exact List.getElem?_cons_zero
      · have hflag : (((k : Nat) : Int) == ci) = true := by
          rw [beq_iff_eq]; exact hk
        simp only [pairsAux, List.filter_cons, hflag, if_true]
        rw [pairsAux_filter_of_lt ci (k + 1) rest (by omega)]
    · have h1' : (((k + 1 : Nat)) : Int) ≤ ci := by omega
      have h2' : ci < (((k + 1 : Nat)) : Int) + rest.length := by
        push_cast
        omega
      obtain ⟨v, hv, hf⟩ := ih (k + 1) h1' h2'
      refine ⟨v, ?_, ?_⟩
      · have hsucc : (ci - (k : Int)).toNat = (ci - ((k + 1 : Nat) : Int)).toNat + 1 := by
          omega
        rw [hsucc, List.getElem?_cons_succ]
        exact hv
      · have hflag : (((k : Nat) : Int) == ci) = false := by
          rw [beq_eq_false_iff_ne]; exact hk
        simp only [pairsAux, List.filter_cons, hflag, if_false]
        exact hf

theorem countP_one_unique_index {γ : Type} (p : γ → Bool) :
    ∀ (l : List γ), l.countP p = 1 →
    ∀ (i j : Nat) (x y : γ), l[i]? = some x → p x = true →
      l[j]? = some y → p y = true → i = j := by
  intro l
  induction l with
  | nil => intro h; simp [List.countP_nil] at h
  | cons a t ih =>
    intro h i j x y hi hx hj hy
    rw [List.countP_cons] at h
    by_cases hpa : p a = true
    · have ht : t.countP p = 0 := by
        simp only [hpa, if_true] at h
        omega
      have hnone := List.countP_eq_zero.mp ht
      cases i with
      | zero =>
        cases j with
        | zero => rfl
        | succ j =>
          rw [List.getElem?_cons_succ] at hj
          exact absurd hy (hnone y (List.getElem?_mem hj))
      | succ i =>
        rw [List.getElem?_cons_succ] at hi
        exact absurd hx (hnone x (List.getElem?_mem hi))
    · have hpa' : (if p a then 1 else 0) = 0 := by simp [hpa]
      rw [hpa'] at h
      have ht : t.countP p = 1 := by omega
      cases i with
      | zero =>
        rw [List.getElem?_cons_zero] at hi
        cases hi
        exact absurd hx hpa
      | succ i =>
        cases j with
        | zero =>
          rw [List.getElem?_cons_zero] at hj
          cases hj
          exact absurd hy hpa
        | succ j =>
          rw [List.getElem?_cons_succ] at hi hj
          rw [ih ht i j x y hi hx hj hy]

theorem mkPairs_map_fst (options : List α) (ci : Int) :
    (mkPairs options ci).map Prod.fst = options := by
  rw [mkPairs_eq_pairsAux]
  exact pairsAux_map_fst ci 0 options

theorem mkPairs_length (options : List α) (ci : Int) :
    (mkPairs options ci).length = options.length := by
  have h := congrArg List.length (mkPairs_map_fst options ci)
  rwa [List.length_map] at h

theorem mkPairs_filter {options : List α} {ci : Int}
    (h0 : 0 ≤ ci) (hlt : ci < (options.length : Int)) :
    ∃ v, options[ci.toNat]? = some v ∧
      (mkPairs options ci).filter (fun p => p.2) = [(v, true)] := by
  rw [mkPairs_eq_pairsAux]
  obtain ⟨v, hv, hf⟩ :=
    pairsAux_filter_of_mem ci 0 options (by omega) (by push_cast; omega)
  have h0' : (ci - ((0 : Nat) : Int)).toNat = ci.toNat := by omega
  rw [h0'] at hv
  exact ⟨v, hv, hf⟩

theorem mkPairs_getElem? (options : List α) (ci : Int) (i : Nat) :
    (mkPairs options ci)[i]? = options[i]?.map (fun o => (o, ((i : Int) == ci))) := by
  rw [mkPairs_eq_pairsAux, pairsAux_getElem?]
  have : (0 : Nat) + i = i := by omega
  rw [this]

/-- Master specification of lines 52-64 on a valid qualifying question:
the transform succeeds, the new `options` are the permuted pair values, the
new `correctIndex` is the (unique) position of the flagged pair, and the
value at the new index is the value at the old one. -/
theorem shuffleQuestion_ok_spec {q : Question α β} {options : List α} {ci : Int}
    (π : List (α × Bool) → List (α × Bool))
    (ht : q.qtype = some "multiple-choice") (ho : q.options = some options)
    (hc : q.correctIndex = some ci) (h0 : 0 ≤ ci) (hlt : ci < (options.length : Int))
    (hπ : (π (mkPairs options ci)).Perm (mkPairs options ci)) :
    ∃ (j : Nat) (v : α),
      shuffleQuestion π q =
        .ok { q with options := some ((π (mkPairs options ci)).map Prod.fst),
                     correctIndex := some (j : Int) } ∧
      options[ci.toNat]? = some v ∧
      ((π (mkPairs options ci)).map Prod.fst)[j]? = some v ∧
      (π (mkPairs options ci)).findIdx? (fun p => p.2) = some j ∧
      j < options.length ∧
      (π (mkPairs options ci)).countP (fun p => p.2) = 1 ∧
      (π (mkPairs options ci))[j]? = some (v, true) := by
  obtain ⟨v, hv, hfil⟩ := mkPairs_filter h0 hlt
  have hfil' : (π (mkPairs options ci)).filter (fun p => p.2) = [(v, true)] :=
    List.perm_singleton.mp (by rw [← hfil]; exact hπ.filter _)
  have hcount : (π (mkPairs options ci)).countP (fun p => p.2) = 1 := by
    rw [List.countP_eq_length_filter, hfil']
    rfl
  have hmem : (v, true) ∈ π (mkPairs options ci) := by
    have hm : (v, true) ∈ (π (mkPairs options ci)).filter (fun p => p.2) := by
      rw [hfil']
      exact List.mem_cons_self _ _
    exact (List.mem_filter.mp hm).1
  have hfind : ∃ j, (π (mkPairs options ci)).findIdx? (fun p => p.2) = some j := by
    cases hcase : (π (mkPairs options ci)).findIdx? (fun p => p.2) with
    | none =>
      have hall := List.findIdx?_eq_none_iff.mp hcase
      have hcontra := hall (v, true) hmem
      simp at hcontra
    | some j => exact ⟨j, rfl⟩
  obtain ⟨j, hj⟩ := hfind
  obtain ⟨hjlt, hjp, _⟩ := List.findIdx?_eq_some_iff_getElem.mp hj
  have hjel : (π (mkPairs options ci))[j] = (v, true) := by
    have hm : (π (mkPairs options ci))[j] ∈
        (π (mkPairs options ci)).filter (fun p => p.2) :=
      List.mem_filter.mpr ⟨List.getElem_mem hjlt, hjp⟩
    rw [hfil'] at hm
    simpa using hm
  have hlen : (π (mkPairs options ci)).length = options.length := by
    rw [hπ.length_eq, mkPairs_length]
  have hqual : qualifies q = true := by
    simp [qualifies, ht, ho, hc]
  have hpy : pyGet options ci = some v := by
    simp only [pyGet]
    rw [if_neg (by omega : ¬ ci < 0), if_pos h0]
    exact hv
  have hsome : (π (mkPairs options ci))[j]? = some (v, true) := by
    rw [List.getElem?_eq_getElem hjlt, hjel]
  refine ⟨j, v, ?_, hv, ?_, hj, by omega, hcount, hsome⟩
  · simp only [shuffleQuestion, hqual, if_true, ho, hc, hpy, hj]
  · rw [List.getElem?_map, hsome]
    rfl

/-- A question failing the line-48 predicate is passed through untouched. -/
theorem shuffleQuestion_not_qualifies (π : List (α × Bool) → List (α × Bool))
    (q : Question α β) (hq : qualifies q = false) :
    shuffleQuestion π q = .ok q := by
  simp [shuffleQuestion, hq]

/-- Whatever branch the transform takes, a successful result changes only
`options` and `correctIndex`: `type` and all other fields are untouched. -/
theorem shuffleQuestion_frame (π : List (α × Bool) → List (α × Bool))
    {q q' : Question α β} (h : shuffleQuestion π q = .ok q') :
    q'.qtype = q.qtype ∧ q'.other = q.other := by
  unfold shuffleQuestion at h
  split at h
  · split at h
    · split at h
      · exact Except.noConfusion h
      · split at h
        · exact Except.noConfusion h
        · cases h
          exact ⟨rfl, rfl⟩
    · cases h
      exact ⟨rfl, rfl⟩
  · cases h
    exact ⟨rfl, rfl⟩

/-- A successful run of the question loop processes the questions pointwise
and in order. -/
theorem shuffleQuestions_forall₂ (π : List (α × Bool) → List (α × Bool)) :
    ∀ {qs qs' : List (Question α β)}, shuffleQuestions π qs = .ok qs' →
      List.Forall₂ (fun q q' => shuffleQuestion π q = .ok q') qs qs' := by
  intro qs
  induction qs with
  | nil =>
    intro qs' h
    cases h
    exact List.Forall₂.nil
  | cons q rest ih =>
    intro qs' h
    unfold shuffleQuestions at h
    cases hq : shuffleQuestion π q with
    | error e => rw [hq] at h; exact Except.noConfusion h
    | ok q1 =>
      rw [hq] at h
      cases hrest : shuffleQuestions π rest with
      | error e => rw [hrest] at h; exact Except.noConfusion h
      | ok rest' =>
        rw [hrest] at h
        cases h
        exact List.Forall₂.cons hq (ih hrest)

/-- Line 54 raises `IndexError` exactly when the index is out of Python's
range (counting negative indices from the end). -/
theorem shuffleQuestion_indexError {q : Question α β} {options : List α} {ci : Int}
    (π : List (α × Bool) → List (α × Bool))
    (ht : q.qtype = some "multiple-choice") (ho : q.options = some options)
    (hc : q.correctIndex = some ci)
    (hout : ci < -(options.length : Int) ∨ (options.length : Int) ≤ ci) :
    shuffleQuestion π q = .error .indexError := by
  have hqual : qualifies q = true := by
    simp [qualifies, ht, ho, hc]
  have hpy : pyGet options ci = none := by
    simp only [pyGet]
    by_cases h : ci < 0
    · rw [if_pos h, if_neg (by omega : ¬ (0 : Int) ≤ (options.length : Int) + ci)]
    · rw [if_neg h, if_pos (by omega)]
      exact List.getElem?_eq_none (by omega)
  simp [shuffleQuestion, hqual, ho, hc, hpy]

/-- For a negative index still in Python's range, line 54 succeeds (Python
counts from the end) but no pair is flagged correct, so line 64's `next`
raises `StopIteration`. -/
theorem shuffleQuestion_stopIteration {q : Question α β} {options : List α} {ci : Int}
    (π : List (α × Bool) → List (α × Bool))
    (ht : q.qtype = some "multiple-choice") (ho : q.options = some options)
    (hc : q.correctIndex = some ci) (hneg : ci < 0)
    (hin : -(options.length : Int) ≤ ci)
    (hπ : (π (mkPairs options ci)).Perm (mkPairs options ci)) :
    shuffleQuestion π q = .error .stopIteration := by
  have hqual : qualifies q = true := by
    simp [qualifies, ht, ho, hc]
  have hlt : ((options.length : Int) + ci).toNat < options.length := by omega
  have hpy : pyGet options ci = some options[((options.length : Int) + ci).toNat] := by
    simp only [pyGet]
    rw [if_pos hneg, if_pos (by omega)]
    exact List.getElem?_eq_getElem hlt
  have hfil : (mkPairs options ci).filter (fun p => p.2) = [] := by
    rw [mkPairs_eq_pairsAux]
    exact pairsAux_filter_of_lt ci 0 options (by omega)
  have hfil' : (π (mkPairs options ci)).filter (fun p => p.2) = [] := by
    have hpf := hπ.filter (fun p => p.2)
    rw [hfil] at hpf
    exact hpf.eq_nil
  have hfind : (π (mkPairs options ci)).findIdx? (fun p => p.2) = none := by
    rw [List.findIdx?_eq_none_iff]
    intro x hx
    cases hpx : x.2 with
    | false => rfl
    | true =>
      exfalso
      have hm : x ∈ (π (mkPairs options ci)).filter (fun p => p.2) :=
        List.mem_filter.mpr ⟨hx, hpx⟩
      rw [hfil'] at hm
      exact List.not_mem_nil x hm
  simp [shuffleQuestion, hqual, ho, hc, hpy, hfind]

/-- If an exception escapes `shuffle_options_in_file`, the write at lines
69-70 was never reached: the file's content is exactly what it was. -/
theorem shuffle_options_in_file_error {π : List (α × Bool) → List (α × Bool)}
    {fd fd' : FileData α β} {e : PyError}
    (h : shuffle_options_in_file π fd = (some e, fd')) : fd' = fd := by
  cases fd with
  | notFound => simp [shuffle_options_in_file] at h
  | invalidJson => simp [shuffle_options_in_file] at h
  | questions qs =>
    cases hs : shuffleQuestions π qs with
    | error e2 =>
      simp only [shuffle_options_in_file, hs, Prod.mk.injEq] at h
      exact h.2.symm
    | ok qs' =>
      simp only [shuffle_options_in_file, hs, Prod.mk.injEq] at h
      exact absurd h.1 (by simp)

/-- When no exception escapes any file's processing, the batch loop of
`main` runs to the end and every file ends up with its processed content. -/
theorem processBatch_of_no_error (π : List (α × Bool) → List (α × Bool)) :
    ∀ files : List (FileData α β),
      (∀ fd ∈ files, (shuffle_options_in_file π fd).1 = none) →
      processBatch π files =
        (none, files.map (fun fd => (shuffle_options_in_file π fd).2)) := by
  intro files
  induction files with
  | nil => intro _; rfl
  | cons fd rest ih =>
    intro hall
    have h1 := hall fd (List.mem_cons_self _ _)
    have hrest := ih (fun fd2 hm => hall fd2 (List.mem_cons_of_mem _ hm))
    unfold processBatch
    cases hfd : shuffle_options_in_file π fd with
    | mk o fd' =>
      rw [hfd] at h1
      simp only at h1
      subst h1
      simp only [hrest, List.map_cons, hfd]

/-- C1: Correctness-preservation: for every question with type
"multiple-choice", both `options` and `correctIndex` present, and
`0 ≤ correctIndex < len(options)`, the option value at the new
`correctIndex` after the transform equals the option value at the old
`correctIndex` before the transform: the shuffle preserves which value is
marked correct, not which position. -/
theorem C1_correctness_preservation {α β : Type} (q : Question α β)
    (options : List α) (ci : Int) (π : List (α × Bool) → List (α × Bool))
    (ht : q.qtype = some "multiple-choice") (ho : q.options = some options)
    (hc : q.correctIndex = some ci) (h0 : 0 ≤ ci)
    (hlt : ci < (options.length : Int))
    (hπ : (π (mkPairs options ci)).Perm (mkPairs options ci)) :
    ∃ (q' : Question α β) (options' : List α) (ci' : Int),
      shuffleQuestion π q = .ok q' ∧
      q'.options = some options' ∧ q'.correctIndex = some ci' ∧ 0 ≤ ci' ∧
      (options'[ci'.toNat]?).isSome = true ∧
      options'[ci'.toNat]? = options[ci.toNat]? := by
  obtain ⟨j, v, hok, hv, hv', hfind, hjlt, hcnt, hj?⟩ :=
    shuffleQuestion_ok_spec π ht ho hc h0 hlt hπ
  have hjn : ((j : Nat) : Int).toNat = j := by omega
  refine ⟨_, _, (j : Int), hok, rfl, rfl, by omega, ?_, ?_⟩
  · rw [hjn, hv']
    rfl
  · rw [hjn, hv', hv]

/-- C1 witness: the concrete Scenario-A question under a reversing
shuffle. -/
theorem C1_correctness_preservation_witness :
    ∃ (q' : Question String Unit) (options' : List String) (ci' : Int),
      shuffleQuestion List.reverse qMC = .ok q' ∧
      q'.options = some options' ∧ q'.correctIndex = some ci' ∧ 0 ≤ ci' ∧
      (options'[ci'.toNat]?).isSome = true ∧
      options'[ci'.toNat]? = (["A", "B", "C"] : List String)[(1 : Int).toNat]? :=
  C1_correctness_preservation qMC ["A", "B", "C"] 1 List.reverse rfl rfl rfl
    (by decide) (by decide) (List.reverse_perm _)

/-- C3: Value-preservation: for every qualifying multiple-choice question
with a valid `correctIndex`, the multiset of option values after the
transform equals the multiset before it. -/
theorem C3_value_preservation {α β : Type} (q : Question α β)
    (options : List α) (ci : Int) (π : List (α × Bool) → List (α × Bool))
    (ht : q.qtype = some "multiple-choice") (ho : q.options = some options)
    (hc : q.correctIndex = some ci) (h0 : 0 ≤ ci)
    (hlt : ci < (options.length : Int))
    (hπ : (π (mkPairs options ci)).Perm (mkPairs options ci)) :
    ∃ (q' : Question α β) (options' : List α),
      shuffleQuestion π q = .ok q' ∧ q'.options = some options' ∧
      (options' : Multiset α) = (options : Multiset α) := by
  obtain ⟨j, v, hok, _, _, _, _, _, _⟩ :=
    shuffleQuestion_ok_spec π ht ho hc h0 hlt hπ
  refine ⟨_, _, hok, rfl, ?_⟩
  rw [Multiset.coe_eq_coe]
  have hmap := hπ.map Prod.fst
  rwa [mkPairs_map_fst] at hmap

/-- C3 witness: the Scenario-A question under a reversing shuffle. -/
theorem C3_value_preservation_witness :
    ∃ (q' : Question String Unit) (options' : List String),
      shuffleQuestion List.reverse qMC = .ok q' ∧ q'.options = some options' ∧
      (options' : Multiset String) = ((["A", "B", "C"] : List String) : Multiset String) :=
  C3_value_preservation qMC ["A", "B", "C"] 1 List.reverse rfl rfl rfl
    (by decide) (by decide) (List.reverse_perm _)

/-- C2: Algorithm steps: the transform pairs each option with a boolean
flag that is true exactly at position `correctIndex` (so exactly one flag
is true), replaces `options` with the permuted option values in order, and
sets `correctIndex` to the unique position in the permuted list where the
flag is true. -/
theorem C2_algorithm_steps {α β : Type} (q : Question α β)
    (options : List α) (ci : Int) (π : List (α × Bool) → List (α × Bool))
    (ht : q.qtype = some "multiple-choice") (ho : q.options = some options)
    (hc : q.correctIndex = some ci) (h0 : 0 ≤ ci)
    (hlt : ci < (options.length : Int))
    (hπ : (π (mkPairs options ci)).Perm (mkPairs options ci)) :
    ((mkPairs options ci).length = options.length ∧
     (∀ (i : Nat) (v : α) (b : Bool), (mkPairs options ci)[i]? = some (v, b) →
        options[i]? = some v ∧ (b = true ↔ (i : Int) = ci)) ∧
     (mkPairs options ci).countP (fun p => p.2) = 1) ∧
    ∃ j : Nat,
      shuffleQuestion π q =
        .ok { q with options := some ((π (mkPairs options ci)).map Prod.fst),
                     correctIndex := some (j : Int) } ∧
      (∃ v : α, (π (mkPairs options ci))[j]? = some (v, true)) ∧
      (∀ (j' : Nat) (v' : α) (b' : Bool),
        (π (mkPairs options ci))[j']? = some (v', b') → b' = true → j' = j) := by
  obtain ⟨j, v, hok, hv, hv', hfind, hjlt, hcnt, hj?⟩ :=
    shuffleQuestion_ok_spec π ht ho hc h0 hlt hπ
  refine ⟨⟨mkPairs_length options ci, ?_, ?_⟩, j, hok, ⟨v, hj?⟩, ?_⟩
  · intro i w b hi
    rw [mkPairs_getElem? options ci i] at hi
    cases ho2 : options[i]? with
    | none =>
      rw [ho2] at hi
      simp at hi
    | some o =>
      rw [ho2] at hi
      simp only [Option.map_some', Option.some.injEq, Prod.mk.injEq] at hi
      obtain ⟨h1, h2⟩ := hi
      subst h1
      subst h2
      exact ⟨rfl, beq_iff_eq⟩
  · obtain ⟨w, hw, hfilm⟩ := mkPairs_filter h0 hlt
    rw [List.countP_eq_length_filter, hfilm]
    rfl
  · intro j' v' b' hj' hb'
    subst hb'
    exact countP_one_unique_index _ _ hcnt j' j (v', true) (v, true) hj' rfl hj? rfl

/-- C2 witness: the Scenario-A question under a reversing shuffle. -/
theorem C2_algorithm_steps_witness :
    ((mkPairs (["A", "B", "C"] : List String) 1).length =
        (["A", "B", "C"] : List String).length ∧
     (∀ (i : Nat) (v : String) (b : Bool),
        (mkPairs (["A", "B", "C"] : List String) 1)[i]? = some (v, b) →
        (["A", "B", "C"] : List String)[i]? = some v ∧ (b = true ↔ (i : Int) = 1)) ∧
     (mkPairs (["A", "B", "C"] : List String) 1).countP (fun p => p.2) = 1) ∧
    ∃ j : Nat,
      shuffleQuestion List.reverse qMC =
        .ok { qMC with
                options := some ((List.reverse (mkPairs (["A", "B", "C"] : List String) 1)).map Prod.fst),
                correctIndex := some (j : Int) } ∧
      (∃ v : String,
        (List.reverse (mkPairs (["A", "B", "C"] : List String) 1))[j]? = some (v, true)) ∧
      (∀ (j' : Nat) (v' : String) (b' : Bool),
        (List.reverse (mkPairs (["A", "B", "C"] : List String) 1))[j']? = some (v', b') →
        b' = true → j' = j) :=
  C2_algorithm_steps qMC ["A", "B", "C"] 1 List.reverse rfl rfl rfl
    (by decide) (by decide) (List.reverse_perm _)

/-- C4: Closure: a valid qualifying question stays valid after the
transform (`0 ≤ correctIndex < len(options)` still holds), and applying the
transform again to the output still satisfies value-preservation and
correctness-preservation. -/
theorem C4_closure {α β : Type} (q : Question α β)
    (options : List α) (ci : Int) (π : List (α × Bool) → List (α × Bool))
    (ht : q.qtype = some "multiple-choice") (ho : q.options = some options)
    (hc : q.correctIndex = some ci) (h0 : 0 ≤ ci)
    (hlt : ci < (options.length : Int))
    (hπ : (π (mkPairs options ci)).Perm (mkPairs options ci)) :
    ∃ (q' : Question α β) (options' : List α) (ci' : Int),
      shuffleQuestion π q = .ok q' ∧
      q'.qtype = some "multiple-choice" ∧
      q'.options = some options' ∧ q'.correctIndex = some ci' ∧
      0 ≤ ci' ∧ ci' < (options'.length : Int) ∧
      ∀ π' : List (α × Bool) → List (α × Bool),
        (π' (mkPairs options' ci')).Perm (mkPairs options' ci') →
        ∃ (q'' : Question α β) (options'' : List α) (ci'' : Int),
          shuffleQuestion π' q' = .ok q'' ∧
          q''.options = some options'' ∧ q''.correctIndex = some ci'' ∧
          0 ≤ ci'' ∧ ci'' < (options''.length : Int) ∧
          (options'' : Multiset α) = (options' : Multiset α) ∧
          options''[ci''.toNat]? = options'[ci'.toNat]? := by
  obtain ⟨j, v, hok, hv, hv', hfind, hjlt, hcnt, hj?⟩ :=
    shuffleQuestion_ok_spec π ht ho hc h0 hlt hπ
  have hlen' : ((π (mkPairs options ci)).map Prod.fst).length = options.length := by
    rw [List.length_map, hπ.length_eq, mkPairs_length]
  refine ⟨_, _, (j : Int), hok, ht, rfl, rfl, by omega, by omega, ?_⟩
  intro π' hπ'
  obtain ⟨j2, v2, hok2, hv2, hv2', hfind2, hjlt2, hcnt2, hj2?⟩ :=
    shuffleQuestion_ok_spec (q := { q with
        options := some ((π (mkPairs options ci)).map Prod.fst),
        correctIndex := some (j : Int) })
      π' ht rfl rfl (by omega) (by omega) hπ'
  have hlen'' :
      ((π' (mkPairs ((π (mkPairs options ci)).map Prod.fst) (j : Int))).map Prod.fst).length =
        ((π (mkPairs options ci)).map Prod.fst).length := by
    rw [List.length_map, hπ'.length_eq, mkPairs_length]
  refine ⟨_, _, (j2 : Int), hok2, rfl, rfl, by omega, by omega, ?_, ?_⟩
  · rw [Multiset.coe_eq_coe]
    have hmap := hπ'.map Prod.fst
    rwa [mkPairs_map_fst] at hmap
  · have hjn : ((j2 : Nat) : Int).toNat = j2 := by omega
    rw [hjn, hv2', hv2]

/-- C4 witness: the Scenario-A question, shuffled by reversal and then
re-shuffled. -/
theorem C4_closure_witness :
    ∃ (q' : Question String Unit) (options' : List String) (ci' : Int),
      shuffleQuestion List.reverse qMC = .ok q' ∧
      q'.qtype = some "multiple-choice" ∧
      q'.options = some options' ∧ q'.correctIndex = some ci' ∧
      0 ≤ ci' ∧ ci' < (options'.length : Int) ∧
      ∀ π' : List (String × Bool) → List (String × Bool),
        (π' (mkPairs options' ci')).Perm (mkPairs options' ci') →
        ∃ (q'' : Question String Unit) (options'' : List String) (ci'' : Int),
          shuffleQuestion π' q' = .ok q'' ∧
          q''.options = some options'' ∧ q''.correctIndex = some ci'' ∧
          0 ≤ ci'' ∧ ci'' < (options''.length : Int) ∧
          (options'' : Multiset String) = (options' : Multiset String) ∧
          options''[ci''.toNat]? = options'[ci'.toNat]? :=
  C4_closure qMC ["A", "B", "C"] 1 List.reverse rfl rfl rfl
    (by decide) (by decide) (List.reverse_perm _)

/-- C5: Non-interference / frame: fields other than `options` and
`correctIndex` of every question are unchanged; every question that fails
the type/field-presence predicate is entirely unchanged; and the order of
questions in the list is preserved (the output relates to the input
pointwise, position by position). -/
theorem C5_non_interference {α β : Type} (π : List (α × Bool) → List (α × Bool)) :
    (∀ q : Question α β, qualifies q = false → shuffleQuestion π q = .ok q) ∧
    (∀ (q q' : Question α β), shuffleQuestion π q = .ok q' →
        q'.qtype = q.qtype ∧ q'.other = q.other) ∧
    (∀ (qs qs' : List (Question α β)), shuffleQuestions π qs = .ok qs' →
        qs'.length = qs.length ∧
        List.Forall₂ (fun q q' =>
          (q'.qtype = q.qtype ∧ q'.other = q.other) ∧
          (qualifies q = false → q' = q)) qs qs') := by
  refine ⟨shuffleQuestion_not_qualifies π,
          fun q q' h => shuffleQuestion_frame π h, ?_⟩
  intro qs qs' h
  have hf := shuffleQuestions_forall₂ π h
  refine ⟨hf.length_eq.symm, ?_⟩
  refine List.Forall₂.imp ?_ hf
  intro q q' hq
  refine ⟨shuffleQuestion_frame π hq, ?_⟩
  intro hnq
  rw [shuffleQuestion_not_qualifies π q hnq] at hq
  injection hq with h2
  exact h2.symm

/-- C5 witness: a two-question list (one short-answer, one multiple-choice)
under a reversing shuffle: the loop succeeds, length and order are kept,
and the short-answer question passes through untouched. -/
theorem C5_non_interference_witness :
    ∃ qs' : List (Question String Unit),
      shuffleQuestions List.reverse
        [⟨some "short-answer", none, none, ()⟩, qGood] = .ok qs' ∧
      qs'.length = 2 ∧
      List.Forall₂ (fun q q' =>
        (q'.qtype = q.qtype ∧ q'.other = q.other) ∧
        (qualifies q = false → q' = q))
        [⟨some "short-answer", none, none, ()⟩, qGood] qs' := by
  have hrun : shuffleQuestions List.reverse
      [(⟨some "short-answer", none, none, ()⟩ : Question String Unit), qGood] =
      .ok [⟨some "short-answer", none, none, ()⟩,
           ⟨some "multiple-choice", some ["B", "A"], some 1, ()⟩] := by rfl
  obtain ⟨hl, hfa⟩ :=
    ((C5_non_interference List.reverse).2.2 _ _ hrun)
  exact ⟨_, hrun, hl, hfa⟩

/-- C6 counterexample: a batch of two files where the first raises an
`IndexError` (out-of-range `correctIndex`). The batch loop in `main` has no
handler, so the second file is left exactly as it was, even though
processing it would have changed it: the error aborts the batch, refuting
per-file isolation for schema errors. -/
theorem C6_counterexample :
    processBatch List.reverse [badFile, goodFile] =
      (some PyError.indexError, [badFile, goodFile]) ∧
    (shuffle_options_in_file List.reverse goodFile).2 ≠ goodFile := by
  decide

/-- C6 (amended): per-file isolation holds only for errors caught during
loading. A missing or unparsable file never aborts the batch, and whenever
no file's processing raises an exception the whole batch is processed; but
an exception escaping one file's transform (a schema violation) aborts the
remaining batch, as shown by the counterexample. -/
theorem C6_batch_isolation {α β : Type} (π : List (α × Bool) → List (α × Bool))
    (files : List (FileData α β))
    (h : ∀ fd ∈ files, (shuffle_options_in_file π fd).1 = none) :
    shuffle_options_in_file (α := α) (β := β) π .invalidJson = (none, .invalidJson) ∧
    shuffle_options_in_file (α := α) (β := β) π .notFound = (none, .notFound) ∧
    processBatch π files =
      (none, files.map (fun fd => (shuffle_options_in_file π fd).2)) :=
  ⟨rfl, rfl, processBatch_of_no_error π files h⟩

/-- C6 witness: a batch of one unparsable file and one valid file is
processed end to end. -/
theorem C6_batch_isolation_witness :
    shuffle_options_in_file (α := String) (β := Unit) List.reverse .invalidJson =
      (none, .invalidJson) ∧
    shuffle_options_in_file (α := String) (β := Unit) List.reverse .notFound =
      (none, .notFound) ∧
    processBatch List.reverse [FileData.invalidJson, goodFile] =
      (none, [FileData.invalidJson, goodFile].map
        (fun fd => (shuffle_options_in_file List.reverse fd).2)) :=
  C6_batch_isolation List.reverse [FileData.invalidJson, goodFile] (by decide)

/-- C7 counterexample: `correctIndex = -1` on a two-option question. Python
evaluates `options[-1]` successfully (negative indexing), so line 54 raises
nothing; the hard failure is line 64's `StopIteration` (no pair is flagged
correct), not an index error as the claim states. -/
theorem C7_counterexample :
    shuffleQuestion id qNeg1 = .error PyError.stopIteration ∧
    shuffleQuestion id qNeg1 ≠ .error PyError.indexError := by
  refine ⟨by rfl, ?_⟩
  intro h
  rw [show shuffleQuestion id qNeg1 = .error PyError.stopIteration from rfl] at h
  exact PyError.noConfusion (Except.error.inj h)

/-- C7 (amended): an out-of-bounds `correctIndex` always makes the
transform raise a hard error and never silently corrects the index, but the
error kind depends on the index: `IndexError` (line 54) when
`correctIndex ≥ len(options)` or `correctIndex < -len(options)`;
`StopIteration` (line 64) when `-len(options) ≤ correctIndex < 0`, because
Python's negative indexing lets line 54 succeed while no pair is flagged
correct. -/
theorem C7_out_of_bounds {α β : Type} (q : Question α β)
    (options : List α) (ci : Int) (π : List (α × Bool) → List (α × Bool))
    (ht : q.qtype = some "multiple-choice") (ho : q.options = some options)
    (hc : q.correctIndex = some ci)
    (hπ : (π (mkPairs options ci)).Perm (mkPairs options ci)) :
    (((options.length : Int) ≤ ci ∨ ci < -(options.length : Int)) →
        shuffleQuestion π q = .error .indexError) ∧
    ((-(options.length : Int) ≤ ci ∧ ci < 0) →
        shuffleQuestion π q = .error .stopIteration) :=
  ⟨fun h => shuffleQuestion_indexError π ht ho hc h.symm,
   fun h => shuffleQuestion_stopIteration π ht ho hc h.2 h.1 hπ⟩

/-- C7 witness: `correctIndex = 5` on one option raises `IndexError`;
`correctIndex = -1` on two options raises `StopIteration`. -/
theorem C7_out_of_bounds_witness :
    shuffleQuestion id qBad5 = .error PyError.indexError ∧
    shuffleQuestion id qNeg1 = .error PyError.stopIteration :=
  ⟨(C7_out_of_bounds qBad5 ["A"] 5 id rfl rfl rfl (List.Perm.refl _)).1
      (by decide),
   (C7_out_of_bounds qNeg1 ["A", "B"] (-1) id rfl rfl rfl (List.Perm.refl _)).2
      (by decide)⟩

/-- C8: Empty-options hard failure: a multiple-choice question with an
empty `options` list and any `correctIndex` present makes the transform
raise (`options[correct_index]` on an empty list is an `IndexError` for
every index), rather than passing the question through or guessing. -/
theorem C8_empty_options {α β : Type} (q : Question α β) (ci : Int)
    (π : List (α × Bool) → List (α × Bool))
    (ht : q.qtype = some "multiple-choice")
    (ho : q.options = some ([] : List α)) (hc : q.correctIndex = some ci) :
    shuffleQuestion π q = .error .indexError :=
  shuffleQuestion_indexError π ht ho hc
    (by simp only [List.length_nil]; omega)

/-- C8 witness: empty options with `correctIndex = -7`. -/
theorem C8_empty_options_witness :
    shuffleQuestion id qEmpty = .error PyError.indexError :=
  C8_empty_options qEmpty (-7) id rfl rfl rfl

/-- C9: ParseError skip: an unparsable file is skipped without an uncaught
fault and without being rewritten, and a batch containing it still
processes and updates every other file whose own processing raises no
exception. -/
theorem C9_parse_error_skip {α β : Type} (π : List (α × Bool) → List (α × Bool))
    (files1 files2 : List (FileData α β))
    (h1 : ∀ fd ∈ files1, (shuffle_options_in_file π fd).1 = none)
    (h2 : ∀ fd ∈ files2, (shuffle_options_in_file π fd).1 = none) :
    shuffle_options_in_file (α := α) (β := β) π .invalidJson = (none, .invalidJson) ∧
    processBatch π (files1 ++ .invalidJson :: files2) =
      (none,
       files1.map (fun fd => (shuffle_options_in_file π fd).2) ++
         .invalidJson :: files2.map (fun fd => (shuffle_options_in_file π fd).2)) := by
  refine ⟨rfl, ?_⟩
  have hall : ∀ fd ∈ files1 ++ .invalidJson :: files2,
      (shuffle_options_in_file (α := α) (β := β) π fd).1 = none := by
    intro fd hm
    rcases List.mem_append.mp hm with hA | hB
    · exact h1 fd hA
    · rcases List.mem_cons.mp hB with rfl | hC
      · rfl
      · exact h2 fd hC
  rw [processBatch_of_no_error π _ hall, List.map_append, List.map_cons]
  rfl

/-- C9 witness: a valid file, then an unparsable file, then another valid
file, under a reversing shuffle. -/
theorem C9_parse_error_skip_witness :
    shuffle_options_in_file (α := String) (β := Unit) List.reverse .invalidJson =
      (none, .invalidJson) ∧
    processBatch List.reverse ([goodFile] ++ .invalidJson :: [goodFile]) =
      (none,
       [goodFile].map (fun fd => (shuffle_options_in_file List.reverse fd).2) ++
         .invalidJson ::
           [goodFile].map (fun fd => (shuffle_options_in_file List.reverse fd).2)) :=
  C9_parse_error_skip List.reverse [goodFile] [goodFile] (by decide) (by decide)

/-- C10: Atomicity on error: the file is rewritten only after the whole
question list transformed successfully. If an exception escapes, or loading
failed (missing file, invalid JSON), the on-disk content is exactly what it
was: a file is never rewritten partially transformed. -/
theorem C10_atomicity {α β : Type} (π : List (α × Bool) → List (α × Bool)) :
    (∀ (fd fd' : FileData α β) (e : PyError),
        shuffle_options_in_file π fd = (some e, fd') → fd' = fd) ∧
    shuffle_options_in_file (α := α) (β := β) π .notFound = (none, .notFound) ∧
    shuffle_options_in_file (α := α) (β := β) π .invalidJson = (none, .invalidJson) :=
  ⟨fun _ _ _ h => shuffle_options_in_file_error h, rfl, rfl⟩

/-- C10 witness: the file whose only question has `correctIndex = 5` raises
`IndexError` and its content is untouched. -/
theorem C10_atomicity_witness :
    shuffle_options_in_file id badFile = (some PyError.indexError, badFile) ∧
    badFile = badFile :=
  ⟨by decide, (C10_atomicity id).1 badFile badFile PyError.indexError (by decide)⟩

end ShuffleOptions
